import Mathlib

/-
Verification of the reconciliation pipeline in `src/main.py` of the
`pratie/my-twitter-bot` repository: row normalization, composite-key
deduplication, existence classification (preview), fault-tolerant upsert
with aggregate reporting, and table statistics.

The embedding models:
 - a pandas DataFrame as a list of column names plus a list of raw rows
   whose cells are `Option String` (`none` stands for a missing/NaN cell);
 - the `field_prompts` table as a list of stored rows; the SQL
   `SELECT ... WHERE area = .. AND sub_area = .. AND field = ..` as a
   `List.find?`, and `INSERT ... ON CONFLICT (area, sub_area, field) DO
   NOTHING` as a conditional append;
 - the psycopg2 connection with `autocommit = False` as a pair of stores:
   the committed database `db` and the uncommitted transaction view `tx`.
   `conn.rollback()` resets `tx` to `db`; the single `conn.commit()` at the
   end of `ingest_excel_data` publishes the final `tx`;
 - a per-row `UnexpectedStorageError` as an oracle `fails : Nat → Bool`
   telling whether processing the i-th normalized record raises;
 - timestamps as natural numbers (seconds); SQL `CURRENT_DATE` as the
   midnight floor of `now`.
-/

namespace MainPy

/-- A raw spreadsheet row as loaded by `pd.read_excel`; `none` models a
missing (NaN) cell. -/
structure RawRow where
  area : Option String
  sub_area : Option String
  field : Option String
  prompt : Option String
deriving DecidableEq, Repr

/-- A loaded DataFrame: its column names and its rows. -/
structure DataFrame where
  columns : List String
  rows : List RawRow
deriving DecidableEq, Repr

/-- The `expected_columns` list of `preview_ingestion` and
`ingest_excel_data`. -/
def expected_columns : List String := ["Area", "Sub Area", "Field", "Prompt"]

/-- The column check `all(col in df.columns for col in expected_columns)`:
every expected column must be present; extra columns are not inspected. -/
def hasExpectedColumns (df : DataFrame) : Bool :=
  expected_columns.all (fun c => df.columns.contains c)

/-- The raw (un-stripped) dedup key used by
`df.drop_duplicates(subset=['Area', 'Sub Area', 'Field'], keep='last')`. -/
def rawKey (r : RawRow) : Option String × Option String × Option String :=
  (r.area, r.sub_area, r.field)

/-- Whether all three key cells are present (non-NaN). -/
def keysPresent (r : RawRow) : Bool :=
  r.area.isSome && r.sub_area.isSome && r.field.isSome

/-- The `df.dropna(subset=['Area', 'Sub Area', 'Field'])` step. -/
def dropnaKeys (rows : List RawRow) : List RawRow :=
  rows.filter keysPresent

/-- One row after `df.fillna('')`: every missing cell becomes the empty
string. -/
def fillnaRow (r : RawRow) : RawRow :=
  ⟨some (r.area.getD ""), some (r.sub_area.getD ""),
   some (r.field.getD ""), some (r.prompt.getD "")⟩

/-- The `df.fillna('')` step of `ingest_excel_data`. -/
def fillna (rows : List RawRow) : List RawRow := rows.map fillnaRow

/-- The `df.drop_duplicates(subset=['Area', 'Sub Area', 'Field'],
keep='last')` step: a row is kept exactly when no later row has the same
raw key triple, so the last occurrence of each key survives, in its
original position. -/
def dedupLast : List RawRow → List RawRow
  | [] => []
  | r :: rs =>
    if rs.any (fun s => decide (rawKey s = rawKey r)) then dedupLast rs
    else r :: dedupLast rs

/-- A persisted row of the `field_prompts` table. -/
structure StoredRow where
  area : String
  sub_area : String
  field : String
  prompt : String
  created_at : Nat
  updated_at : Nat
deriving DecidableEq, Repr

/-- The `field_prompts` table. -/
abbrev Store := List StoredRow

/-- The lookup `SELECT id FROM field_prompts WHERE area = %s AND
sub_area = %s AND field = %s`. -/
def selectByKey (db : Store) (a s f : String) : Option StoredRow :=
  db.find? (fun r => decide (r.area = a ∧ r.sub_area = s ∧ r.field = f))

/-- The statement `INSERT INTO field_prompts ... ON CONFLICT (area,
sub_area, field) DO NOTHING`: append the row unless the unique key is
already present. -/
def insertIgnore (db : Store) (a s f p : String) (now : Nat) : Store :=
  match selectByKey db a s f with
  | some _ => db
  | none => db ++ [⟨a, s, f, p, now, now⟩]

/-- Python's `str.strip()`: remove leading and trailing whitespace,
modelled on the string's character list. -/
def pyStrip (s : String) : String :=
  ⟨((s.data.dropWhile Char.isWhitespace).reverse.dropWhile
      Char.isWhitespace).reverse⟩

/-- The stripped area `row['Area'].strip()` of a row. -/
def procA (r : RawRow) : String := pyStrip (r.area.getD "")

/-- The stripped sub-area `row['Sub Area'].strip()` of a row. -/
def procS (r : RawRow) : String := pyStrip (r.sub_area.getD "")

/-- The stripped field `row['Field'].strip()` of a row. -/
def procF (r : RawRow) : String := pyStrip (r.field.getD "")

/-- The prompt actually inserted: `str(row['Prompt']).strip() if
pd.notna(row['Prompt']) else ''`. -/
def procP (r : RawRow) : String := pyStrip (r.prompt.getD "")

/-- The stripped key triple a row is checked and inserted under. -/
def procKey (r : RawRow) : String × String × String :=
  (procA r, procS r, procF r)

/-- The stored row created for a raw row at time `now` (both timestamps
are `CURRENT_TIMESTAMP`). -/
def toStored (r : RawRow) (now : Nat) : StoredRow :=
  ⟨procA r, procS r, procF r, procP r, now, now⟩

/-- The counters of `ingest_excel_data`: `new_count`, `skipped_count`,
`error_count`, `success_count`. -/
structure IngestCounts where
  new_count : Nat
  skipped_count : Nat
  error_count : Nat
  success_count : Nat
deriving DecidableEq, Repr

/-- The per-row loop of `ingest_excel_data`. State: the committed store
`db` (no commit happens inside the loop) and the current connection's
uncommitted transaction view `tx`. A successful row SELECTs the key in
`tx`, INSERT-or-ignores into `tx`, and bumps `skipped_count` or
`new_count` according to the prior SELECT, plus `success_count`. A row on
which the oracle `fails` fires raises: `error_count` is bumped,
`conn.rollback()` discards the uncommitted work (`tx` resets to `db`) and
a fresh connection continues. -/
def ingestLoop (fails : Nat → Bool) (now : Nat) :
    List RawRow → Nat → Store → Store → IngestCounts →
      Store × Store × IngestCounts
  | [], _, db, tx, c => (db, tx, c)
  | r :: rs, i, db, tx, c =>
    if fails i then
      ingestLoop fails now rs (i + 1) db db
        ⟨c.new_count, c.skipped_count, c.error_count + 1, c.success_count⟩
    else
      let existing := selectByKey tx (procA r) (procS r) (procF r)
      let tx2 := insertIgnore tx (procA r) (procS r) (procF r) (procP r) now
      let c2 :=
        if existing.isSome then
          ⟨c.new_count, c.skipped_count + 1, c.error_count,
           c.success_count + 1⟩
        else
          (⟨c.new_count + 1, c.skipped_count, c.error_count,
            c.success_count + 1⟩ : IngestCounts)
      ingestLoop fails now rs (i + 1) db tx2 c2

/-- The failure oracle of a run in which no row raises. -/
def noFail : Nat → Bool := fun _ => false

/-- The normalization pipeline of `ingest_excel_data`:
`dropna(subset=keys)`, then `fillna('')`, then
`drop_duplicates(subset=keys, keep='last')`. -/
def normalizeIngest (rows : List RawRow) : List RawRow :=
  dedupLast (fillna (dropnaKeys rows))

/-- The function `ingest_excel_data`: reject unless the expected columns
are present, normalize, run the upsert loop starting from committed store
`db` (the fresh transaction view also starts at `db`), then
`conn.commit()` publishes the final transaction view. Returns the
committed store after the run and the counters; `none` models the
`return False` on the failed column check. -/
def ingest_excel_data (fails : Nat → Bool) (now : Nat) (df : DataFrame)
    (db : Store) : Option (Store × IngestCounts) :=
  if hasExpectedColumns df then
    some (ingestLoop fails now (normalizeIngest df.rows) 0 db db ⟨0, 0, 0, 0⟩).2
  else
    none

/-- The normalization pipeline of `preview_ingestion`:
`dropna(subset=keys)` then `drop_duplicates(subset=keys, keep='last')`
(no `fillna`). -/
def normalizePreview (rows : List RawRow) : List RawRow :=
  dedupLast (dropnaKeys rows)

/-- One iteration of the preview loop: SELECT the stripped key in the
store; presence bumps `existing_count`, absence bumps `new_count`. The
store is threaded through untouched cells apart, mirroring that the loop
body only executes SELECT statements. -/
def previewStep (st : (Nat × Nat) × Store) (r : RawRow) :
    (Nat × Nat) × Store :=
  match selectByKey st.2 (procA r) (procS r) (procF r) with
  | some _ => ((st.1.1, st.1.2 + 1), st.2)
  | none => ((st.1.1 + 1, st.1.2), st.2)

/-- The function `preview_ingestion`: reject unless the expected columns
are present, normalize (without `fillna`), and count `(new_count,
existing_count)` against the store, threading the store through the
read-only loop. -/
def preview_ingestion (df : DataFrame) (db : Store) :
    Option ((Nat × Nat) × Store) :=
  if hasExpectedColumns df then
    some ((normalizePreview df.rows).foldl previewStep ((0, 0), db))
  else
    none

/-- Seconds per day, to model SQL date arithmetic. -/
def secondsPerDay : Nat := 86400

/-- The SQL `CURRENT_DATE` as a timestamp: midnight of the day containing
`now`. -/
def currentDate (now : Nat) : Nat :=
  (now / secondsPerDay) * secondsPerDay

/-- The record returned by `get_database_stats`. -/
structure DbStats where
  total_records : Nat
  unique_areas : Nat
  unique_sub_areas : Nat
  recent_updates : Nat
deriving DecidableEq, Repr

/-- The function `get_database_stats`: `COUNT(*)`, `COUNT(DISTINCT
area)`, `COUNT(DISTINCT sub_area)`, and the count of rows with
`updated_at >= CURRENT_DATE - INTERVAL '7 days'`. A pure read of the
store. -/
def get_database_stats (db : Store) (now : Nat) : DbStats :=
  ⟨db.length,
   (db.map (fun r => r.area)).dedup.length,
   (db.map (fun r => r.sub_area)).dedup.length,
   (db.filter (fun r =>
     decide (currentDate now - 7 * secondsPerDay ≤ r.updated_at))).length⟩

/-- Modelled from the spec: the spec's reading of `recently_updated` —
the number of rows whose `updated_at` falls within a trailing 7-day
window of the current time at query time, i.e. `now - 7 days ≤
updated_at ≤ now`. Stated only to compare with `get_database_stats`,
whose window is anchored to `CURRENT_DATE` instead. -/
def specRecentlyUpdated (db : Store) (now : Nat) : Nat :=
  (db.filter (fun r =>
    decide (now - 7 * secondsPerDay ≤ r.updated_at ∧ r.updated_at ≤ now))).length

/-! Helper lemmas about the storage primitives. -/

theorem selectByKey_append (db1 db2 : Store) (a s f : String) :
    selectByKey (db1 ++ db2) a s f =
      (selectByKey db1 a s f).or (selectByKey db2 a s f) := by
  unfold selectByKey
  exact List.find?_append

theorem selectByKey_isSome_iff (db : Store) (a s f : String) :
    (selectByKey db a s f).isSome = true ↔
      ∃ x ∈ db, x.area = a ∧ x.sub_area = s ∧ x.field = f := by
  unfold selectByKey
  rw [List.find?_isSome]
  simp

theorem selectByKey_eq_none_iff (db : Store) (a s f : String) :
    selectByKey db a s f = none ↔
      ∀ x ∈ db, ¬(x.area = a ∧ x.sub_area = s ∧ x.field = f) := by
  unfold selectByKey
  rw [List.find?_eq_none]
  simp

theorem selectByKey_append_left (db1 db2 : Store) (a s f : String)
    (h : (selectByKey db1 a s f).isSome = true) :
    selectByKey (db1 ++ db2) a s f = selectByKey db1 a s f := by
  rw [selectByKey_append]
  cases hx : selectByKey db1 a s f with
  | none => rw [hx] at h; simp at h
  | some x => rfl

theorem selectByKey_append_singleton_ne (db : Store) (x : StoredRow)
    (a s f : String) (h : ¬(x.area = a ∧ x.sub_area = s ∧ x.field = f)) :
    selectByKey (db ++ [x]) a s f = selectByKey db a s f := by
  rw [selectByKey_append]
  have hone : selectByKey [x] a s f = none := by
    rw [selectByKey_eq_none_iff]
    intro y hy
    simp at hy
    rw [hy]
    exact h
  rw [hone]
  cases selectByKey db a s f <;> rfl

theorem insertIgnore_of_isSome (db : Store) (a s f p : String) (now : Nat)
    (h : (selectByKey db a s f).isSome = true) :
    insertIgnore db a s f p now = db := by
  unfold insertIgnore
  cases hx : selectByKey db a s f with
  | none => rw [hx] at h; simp at h
  | some x => rfl

theorem insertIgnore_of_none (db : Store) (a s f p : String) (now : Nat)
    (h : selectByKey db a s f = none) :
    insertIgnore db a s f p now = db ++ [⟨a, s, f, p, now, now⟩] := by
  unfold insertIgnore
  rw [h]

/-! Helper lemmas about normalization. -/

theorem mem_of_mem_dedupLast (l : List RawRow) (r : RawRow)
    (h : r ∈ dedupLast l) : r ∈ l := by
  induction l with
  | nil => simp [dedupLast] at h
  | cons x xs ih =>
    by_cases hx : xs.any (fun s => decide (rawKey s = rawKey x)) = true
    · rw [dedupLast, if_pos hx] at h
      exact List.mem_cons_of_mem _ (ih h)
    · rw [dedupLast, if_neg hx] at h
      rcases List.mem_cons.mp h with h | h
      · rw [h]; exact List.mem_cons_self x xs
      · exact List.mem_cons_of_mem _ (ih h)

theorem dedupLast_eq_self (l : List RawRow)
    (h : l.Pairwise (fun a b => rawKey a ≠ rawKey b)) : dedupLast l = l := by
  induction l with
  | nil => rfl
  | cons x xs ih =>
    rw [List.pairwise_cons] at h
    have hany : xs.any (fun s => decide (rawKey s = rawKey x)) ≠ true := by
      intro hc
      rw [List.any_eq_true] at hc
      rcases hc with ⟨s, hs, he⟩
      exact h.1 s hs (of_decide_eq_true he).symm
    rw [dedupLast, if_neg hany, ih h.2]

theorem keysPresent_iff (r : RawRow) :
    keysPresent r = true ↔
      r.area.isSome = true ∧ r.sub_area.isSome = true ∧ r.field.isSome = true := by
  unfold keysPresent
  simp [Bool.and_eq_true, and_assoc]

theorem rawKey_fillnaRow (r : RawRow) (h : keysPresent r = true) :
    rawKey (fillnaRow r) = rawKey r := by
  obtain ⟨ha, hs, hf⟩ := (keysPresent_iff r).mp h
  obtain ⟨a, ha⟩ := Option.isSome_iff_exists.mp ha
  obtain ⟨s, hs⟩ := Option.isSome_iff_exists.mp hs
  obtain ⟨f, hf⟩ := Option.isSome_iff_exists.mp hf
  simp [rawKey, fillnaRow, ha, hs, hf]

theorem procKey_fillnaRow (r : RawRow) : procKey (fillnaRow r) = procKey r := rfl

theorem toStored_fillnaRow (r : RawRow) (now : Nat) :
    toStored (fillnaRow r) now = toStored r now := rfl

theorem procKey_eq_of_rawKey_eq (a b : RawRow) (h : rawKey a = rawKey b) :
    procKey a = procKey b := by
  unfold rawKey at h
  simp only [Prod.mk.injEq] at h
  obtain ⟨h1, h2, h3⟩ := h
  simp only [procKey, procA, procS, procF]
  rw [h1, h2, h3]

theorem any_rawKey_map_fillnaRow (rs : List RawRow) (r : RawRow)
    (hr : keysPresent r = true) (hrs : ∀ s ∈ rs, keysPresent s = true) :
    (rs.map fillnaRow).any (fun s => decide (rawKey s = rawKey (fillnaRow r))) =
      rs.any (fun s => decide (rawKey s = rawKey r)) := by
  induction rs with
  | nil => rfl
  | cons x xs ih =>
    have hx := hrs x (List.mem_cons_self x xs)
    have hxs : ∀ s ∈ xs, keysPresent s = true :=
      fun s hs => hrs s (List.mem_cons_of_mem _ hs)
    simp only [List.map_cons, List.any_cons, ih hxs]
    rw [rawKey_fillnaRow x hx, rawKey_fillnaRow r hr]

theorem dedupLast_map_fillnaRow (l : List RawRow)
    (h : ∀ r ∈ l, keysPresent r = true) :
    dedupLast (l.map fillnaRow) = (dedupLast l).map fillnaRow := by
  induction l with
  | nil => rfl
  | cons x xs ih =>
    have hx := h x (List.mem_cons_self x xs)
    have hxs : ∀ s ∈ xs, keysPresent s = true :=
      fun s hs => h s (List.mem_cons_of_mem _ hs)
    simp only [List.map_cons]
    rw [dedupLast, dedupLast, any_rawKey_map_fillnaRow xs x hx hxs]
    by_cases hany : xs.any (fun s => decide (rawKey s = rawKey x)) = true
    · rw [if_pos hany, if_pos hany, ih hxs]
    · rw [if_neg hany, if_neg hany, ih hxs, List.map_cons]

theorem keysPresent_of_mem_dropnaKeys (rows : List RawRow) (r : RawRow)
    (h : r ∈ dropnaKeys rows) : r ∈ rows ∧ keysPresent r = true := by
  simpa [dropnaKeys] using List.mem_filter.mp h

theorem normalizeIngest_eq_map (rows : List RawRow) :
    normalizeIngest rows = (normalizePreview rows).map fillnaRow := by
  unfold normalizeIngest normalizePreview fillna
  rw [dedupLast_map_fillnaRow]
  intro r hr
  exact (keysPresent_of_mem_dropnaKeys rows r hr).2

/-! Helper lemmas about the upsert loop and the preview loop. -/

theorem procKey_ne_of_key_fields_ne (r x : RawRow)
    (h : ¬(procA r = procA x ∧ procS r = procS x ∧ procF r = procF x)) :
    procKey r ≠ procKey x := by
  intro hc
  simp only [procKey, Prod.mk.injEq] at hc
  exact h hc

theorem insertIgnore_toStored_of_none (tx : Store) (r : RawRow) (now : Nat)
    (h : selectByKey tx (procA r) (procS r) (procF r) = none) :
    insertIgnore tx (procA r) (procS r) (procF r) (procP r) now =
      tx ++ [toStored r now] :=
  insertIgnore_of_none tx (procA r) (procS r) (procF r) (procP r) now h

theorem ingestLoop_all_new (rs : List RawRow) (now : Nat) (i : Nat)
    (db tx : Store) (c : IngestCounts)
    (hdist : rs.Pairwise (fun a b => procKey a ≠ procKey b))
    (habs : ∀ r ∈ rs, selectByKey tx (procA r) (procS r) (procF r) = none) :
    ingestLoop noFail now rs i db tx c =
      (db, tx ++ rs.map (fun r => toStored r now),
       ⟨c.new_count + rs.length, c.skipped_count, c.error_count,
        c.success_count + rs.length⟩) := by
  induction rs generalizing i tx c with
  | nil => simp [ingestLoop]
  | cons r rs ih =>
    rw [List.pairwise_cons] at hdist
    have h0 : selectByKey tx (procA r) (procS r) (procF r) = none :=
      habs r (List.mem_cons_self r rs)
    have habs2 : ∀ x ∈ rs,
        selectByKey (tx ++ [toStored r now]) (procA x) (procS x) (procF x) = none := by
      intro x hx
      rw [selectByKey_append_singleton_ne]
      · exact habs x (List.mem_cons_of_mem _ hx)
      · intro hc
        apply hdist.1 x hx
        simp only [toStored] at hc
        simp only [procKey, Prod.mk.injEq]
        exact hc
    rw [ingestLoop]
    simp only [noFail, if_false, Bool.false_eq_true]
    rw [h0]
    simp only [Option.isSome_none, Bool.false_eq_true, if_false]
    rw [insertIgnore_toStored_of_none tx r now h0]
    rw [ih (i + 1) (tx ++ [toStored r now]) _ hdist.2 habs2]
    simp [List.append_assoc]; omega

theorem ingestLoop_all_existing (rs : List RawRow) (now : Nat) (i : Nat)
    (db tx : Store) (c : IngestCounts)
    (hpres : ∀ r ∈ rs, (selectByKey tx (procA r) (procS r) (procF r)).isSome = true) :
    ingestLoop noFail now rs i db tx c =
      (db, tx,
       ⟨c.new_count, c.skipped_count + rs.length, c.error_count,
        c.success_count + rs.length⟩) := by
  induction rs generalizing i c with
  | nil => simp [ingestLoop]
  | cons r rs ih =>
    have h0 : (selectByKey tx (procA r) (procS r) (procF r)).isSome = true :=
      hpres r (List.mem_cons_self r rs)
    rw [ingestLoop]
    simp only [noFail, Bool.false_eq_true, if_false]
    rw [h0]
    simp only [if_true]
    rw [insertIgnore_of_isSome tx (procA r) (procS r) (procF r) (procP r) now h0]
    rw [ih (i + 1) _ (fun x hx => hpres x (List.mem_cons_of_mem _ hx))]
    simp; omega

theorem ingestLoop_classify (rs : List RawRow) (now : Nat) (i : Nat)
    (db0 db tx : Store) (c : IngestCounts)
    (hdist : rs.Pairwise (fun a b => procKey a ≠ procKey b))
    (hagree : ∀ r ∈ rs, selectByKey tx (procA r) (procS r) (procF r)
                        = selectByKey db0 (procA r) (procS r) (procF r)) :
    (ingestLoop noFail now rs i db tx c).2.2 =
      ⟨c.new_count +
         rs.countP (fun r => (selectByKey db0 (procA r) (procS r) (procF r)).isNone),
       c.skipped_count +
         rs.countP (fun r => (selectByKey db0 (procA r) (procS r) (procF r)).isSome),
       c.error_count,
       c.success_count + rs.length⟩ := by
  induction rs generalizing i tx c with
  | nil => simp [ingestLoop]
  | cons r rs ih =>
    rw [List.pairwise_cons] at hdist
    have h0 := hagree r (List.mem_cons_self r rs)
    rw [ingestLoop]
    simp only [noFail, Bool.false_eq_true, if_false]
    rw [h0]
    cases hsel : selectByKey db0 (procA r) (procS r) (procF r) with
    | some x =>
      rw [hsel] at h0
      simp only [Option.isSome_some, if_true]
      rw [insertIgnore_of_isSome tx (procA r) (procS r) (procF r) (procP r) now
        (by rw [h0]; rfl)]
      rw [ih (i + 1) tx _ hdist.2
        (fun x hx => hagree x (List.mem_cons_of_mem _ hx))]
      simp [List.countP_cons, hsel]; omega
    | none =>
      rw [hsel] at h0
      simp only [Option.isSome_none, Bool.false_eq_true, if_false]
      rw [insertIgnore_toStored_of_none tx r now h0]
      have hagree2 : ∀ x ∈ rs,
          selectByKey (tx ++ [toStored r now]) (procA x) (procS x) (procF x)
            = selectByKey db0 (procA x) (procS x) (procF x) := by
        intro x hx
        rw [selectByKey_append_singleton_ne]
        · exact hagree x (List.mem_cons_of_mem _ hx)
        · intro hc
          apply hdist.1 x hx
          simp only [toStored] at hc
          simp only [procKey, Prod.mk.injEq]
          exact hc
      rw [ih (i + 1) (tx ++ [toStored r now]) _ hdist.2 hagree2]
      simp [List.countP_cons, hsel]; omega

theorem ingestLoop_tx_extends (fails : Nat → Bool) (now : Nat)
    (rs : List RawRow) (i : Nat) (db tx : Store) (c : IngestCounts)
    (l : Store) (htx : tx = db ++ l) :
    ∃ l2, (ingestLoop fails now rs i db tx c).2.1 = db ++ l2 := by
  induction rs generalizing i tx c l with
  | nil => exact ⟨l, by simp [ingestLoop, htx]⟩
  | cons r rs ih =>
    rw [ingestLoop]
    by_cases hf : fails i = true
    · rw [if_pos hf]
      exact ih (i + 1) db _ [] (by simp)
    · rw [if_neg hf]
      cases hsel : selectByKey tx (procA r) (procS r) (procF r) with
      | some x =>
        simp only [hsel, Option.isSome_some, if_true]
        rw [insertIgnore_of_isSome tx (procA r) (procS r) (procF r) (procP r) now
          (by rw [hsel]; rfl)]
        exact ih (i + 1) tx _ l htx
      | none =>
        simp only [hsel, Option.isSome_none, Bool.false_eq_true, if_false]
        rw [insertIgnore_of_none tx (procA r) (procS r) (procF r) (procP r) now hsel]
        exact ih (i + 1) _ _ (l ++ [⟨procA r, procS r, procF r, procP r, now, now⟩])
          (by rw [htx, List.append_assoc])

theorem foldl_previewStep (rs : List RawRow) (db : Store) (n e : Nat) :
    rs.foldl previewStep ((n, e), db) =
      ((n + rs.countP
          (fun r => (selectByKey db (procA r) (procS r) (procF r)).isNone),
        e + rs.countP
          (fun r => (selectByKey db (procA r) (procS r) (procF r)).isSome)),
       db) := by
  induction rs generalizing n e with
  | nil => simp
  | cons r rs ih =>
    rw [List.foldl_cons]
    cases hsel : selectByKey db (procA r) (procS r) (procF r) with
    | some x =>
      have hstep : previewStep ((n, e), db) r = ((n, e + 1), db) := by
        unfold previewStep
        rw [hsel]
      rw [hstep, ih]
      simp [List.countP_cons, hsel]; omega
    | none =>
      have hstep : previewStep ((n, e), db) r = ((n + 1, e), db) := by
        unfold previewStep
        rw [hsel]
      rw [hstep, ih]
      simp [List.countP_cons, hsel]; omega

theorem foldl_previewStep_store (rs : List RawRow) (st : (Nat × Nat) × Store) :
    (rs.foldl previewStep st).2 = st.2 := by
  induction rs generalizing st with
  | nil => rfl
  | cons r rs ih =>
    rw [List.foldl_cons, ih]
    unfold previewStep
    cases selectByKey st.2 (procA r) (procS r) (procF r) <;> rfl

theorem ingestLoop_cons_new (r : RawRow) (rs : List RawRow) (now i : Nat)
    (db tx : Store) (c : IngestCounts)
    (h : selectByKey tx (procA r) (procS r) (procF r) = none) :
    ingestLoop noFail now (r :: rs) i db tx c =
      ingestLoop noFail now rs (i + 1) db (tx ++ [toStored r now])
        ⟨c.new_count + 1, c.skipped_count, c.error_count,
         c.success_count + 1⟩ := by
  rw [ingestLoop]
  simp only [noFail, Bool.false_eq_true, if_false]
  rw [h, insertIgnore_toStored_of_none tx r now h]
  simp only [Option.isSome_none, Bool.false_eq_true, if_false]

theorem ingestLoop_cons_existing (r : RawRow) (rs : List RawRow) (now i : Nat)
    (db tx : Store) (c : IngestCounts)
    (h : (selectByKey tx (procA r) (procS r) (procF r)).isSome = true) :
    ingestLoop noFail now (r :: rs) i db tx c =
      ingestLoop noFail now rs (i + 1) db tx
        ⟨c.new_count, c.skipped_count + 1, c.error_count,
         c.success_count + 1⟩ := by
  rw [ingestLoop]
  simp only [noFail, Bool.false_eq_true, if_false]
  rw [insertIgnore_of_isSome tx (procA r) (procS r) (procF r) (procP r) now h, h]
  simp only [if_true]

/-! The claims. -/

/-- C1: the claim's failure-isolation property fails on the code, which is
a bug. In a batch of N = 2 records with distinct keys in which exactly the
second raises an unexpected storage error, the run reports new = 1,
skipped = 0, failed = 1 (the counts do sum to N), but the committed store
after the run is empty: the loop holds every insert of the run in one
uncommitted transaction (the only `conn.commit()` is after the loop), so
the `conn.rollback()` performed for the failing record also discards the
first record's insert — the record is counted as inserted yet is not
persisted, and the other N−1 records are not correctly persisted as the
claim requires. -/
theorem C1_unexpected_error_rolls_back_prior_records :
    ingest_excel_data (fun i => decide (i = 1)) 0
      ⟨expected_columns,
       [⟨some "A1", some "S1", some "F1", some "P1"⟩,
        ⟨some "A2", some "S2", some "F2", some "P2"⟩]⟩ [] =
      some ([], ⟨1, 0, 1, 1⟩) ∧
    (1 : Nat) + 0 + 1 = 2 ∧
    selectByKey [] "A1" "S1" "F1" = none := by
  exact ⟨by decide, rfl, rfl⟩

/-- C2: idempotence. For any batch of well-formed records (all three key
cells present) whose stripped keys are pairwise distinct, ingesting into
an empty store without failures inserts all N records (inserted = N,
skipped_existing = 0, failed = 0), and ingesting the same input again
into the resulting store inserts nothing and skips all N (inserted = 0,
skipped_existing = N, failed = 0). -/
theorem C2_ingest_idempotent (df : DataFrame) (now1 now2 : Nat)
    (hcols : hasExpectedColumns df = true)
    (hwf : ∀ r ∈ df.rows, keysPresent r = true)
    (hdist : df.rows.Pairwise (fun a b => procKey a ≠ procKey b)) :
    ingest_excel_data noFail now1 df [] =
      some (df.rows.map (fun r => toStored r now1),
            ⟨df.rows.length, 0, 0, df.rows.length⟩) ∧
    ingest_excel_data noFail now2 df
        (df.rows.map (fun r => toStored r now1)) =
      some (df.rows.map (fun r => toStored r now1),
            ⟨0, df.rows.length, 0, df.rows.length⟩) := by
  have hdrop : dropnaKeys df.rows = df.rows := List.filter_eq_self.mpr hwf
  have hdistfill : (df.rows.map fillnaRow).Pairwise
      (fun a b => rawKey a ≠ rawKey b) := by
    rw [List.pairwise_map]
    refine hdist.imp ?_
    intro a b hab hc
    apply hab
    have hpk := procKey_eq_of_rawKey_eq _ _ hc
    rwa [procKey_fillnaRow, procKey_fillnaRow] at hpk
  have hnorm : normalizeIngest df.rows = df.rows.map fillnaRow := by
    unfold normalizeIngest fillna
    rw [hdrop, dedupLast_eq_self _ hdistfill]
  have hdistp : (df.rows.map fillnaRow).Pairwise
      (fun a b => procKey a ≠ procKey b) := by
    rw [List.pairwise_map]
    simpa [procKey_fillnaRow] using hdist
  have hmapstored : (df.rows.map fillnaRow).map (fun r => toStored r now1) =
      df.rows.map (fun r => toStored r now1) := by
    rw [List.map_map]
    rfl
  constructor
  · unfold ingest_excel_data
    rw [if_pos hcols, hnorm]
    rw [ingestLoop_all_new _ now1 0 [] [] _ hdistp (fun r _ => rfl)]
    simp [hmapstored]
  · unfold ingest_excel_data
    rw [if_pos hcols, hnorm]
    have hpres : ∀ r ∈ df.rows.map fillnaRow,
        (selectByKey (df.rows.map (fun r => toStored r now1))
          (procA r) (procS r) (procF r)).isSome = true := by
      intro r hr
      rw [List.mem_map] at hr
      obtain ⟨r0, hr0, rfl⟩ := hr
      rw [selectByKey_isSome_iff]
      exact ⟨toStored r0 now1, List.mem_map_of_mem _ hr0, rfl, rfl, rfl⟩
    rw [ingestLoop_all_existing _ now2 0 _ _ _ hpres]
    simp

/-- C2 witness: a concrete two-record batch with distinct keys, ingested
twice starting from the empty store. -/
theorem C2_ingest_idempotent_witness :
    ingest_excel_data noFail 3
      ⟨expected_columns,
       [⟨some "Finance", some "Tax", some "Rate", some "old"⟩,
        ⟨some "Ops", some "HR", some "Pay", some "x"⟩]⟩ [] =
      some ([⟨"Finance", "Tax", "Rate", "old", 3, 3⟩,
             ⟨"Ops", "HR", "Pay", "x", 3, 3⟩], ⟨2, 0, 0, 2⟩) ∧
    ingest_excel_data noFail 9
      ⟨expected_columns,
       [⟨some "Finance", some "Tax", some "Rate", some "old"⟩,
        ⟨some "Ops", some "HR", some "Pay", some "x"⟩]⟩
      [⟨"Finance", "Tax", "Rate", "old", 3, 3⟩,
       ⟨"Ops", "HR", "Pay", "x", 3, 3⟩] =
      some ([⟨"Finance", "Tax", "Rate", "old", 3, 3⟩,
             ⟨"Ops", "HR", "Pay", "x", 3, 3⟩], ⟨0, 2, 0, 2⟩) :=
  C2_ingest_idempotent
    ⟨expected_columns,
     [⟨some "Finance", some "Tax", some "Rate", some "old"⟩,
      ⟨some "Ops", some "HR", some "Pay", some "x"⟩]⟩ 3 9
    (by decide) (by decide) (by decide)

/-- C3: insert-or-ignore never replaces. For every input batch, failure
pattern, timestamp and initial store, a completed ingest run only appends
rows to the committed store, so a key already present before the run
still resolves to exactly the same stored row afterwards — its prompt and
created_at are untouched; batch re-ingestion never overwrites an existing
row's content. -/
theorem C3_existing_rows_untouched (fails : Nat → Bool) (now : Nat)
    (df : DataFrame) (db db2 : Store) (c : IngestCounts)
    (hrun : ingest_excel_data fails now df db = some (db2, c))
    (a s f : String) (hpres : (selectByKey db a s f).isSome = true) :
    selectByKey db2 a s f = selectByKey db a s f := by
  unfold ingest_excel_data at hrun
  by_cases hcols : hasExpectedColumns df = true
  · rw [if_pos hcols] at hrun
    obtain ⟨l2, hl2⟩ := ingestLoop_tx_extends fails now
      (normalizeIngest df.rows) 0 db db ⟨0, 0, 0, 0⟩ [] (by simp)
    rw [Option.some.injEq] at hrun
    have hdb2 : db2 = db ++ l2 := by
      rw [← hl2]
      rw [Prod.ext_iff] at hrun
      exact hrun.1.symm
    rw [hdb2]
    exact selectByKey_append_left db l2 a s f hpres
  · rw [if_neg hcols] at hrun
    exact absurd hrun (by simp)

/-- C3 witness: ingesting a batch with one fresh key on top of a store
holding the key ("A", "S", "F") leaves that key's row — prompt "P",
created_at 1 — untouched. -/
theorem C3_existing_rows_untouched_witness :
    selectByKey
      [⟨"A", "S", "F", "P", 1, 1⟩, ⟨"B", "T", "G", "Q", 5, 5⟩] "A" "S" "F" =
      selectByKey [⟨"A", "S", "F", "P", 1, 1⟩] "A" "S" "F" :=
  C3_existing_rows_untouched noFail 5
    ⟨expected_columns, [⟨some "B", some "T", some "G", some "Q"⟩]⟩
    [⟨"A", "S", "F", "P", 1, 1⟩]
    [⟨"A", "S", "F", "P", 1, 1⟩, ⟨"B", "T", "G", "Q", 5, 5⟩]
    ⟨1, 0, 0, 1⟩ (by decide) "A" "S" "F" (by decide)

/-- C4 counterexample: the agreement fails as universally stated. With
two raw rows whose keys differ only by leading whitespace, both survive
the raw-key dedup; preview classifies both as new against the unchanged
empty store (new = 2, existing = 0), while ingest inserts the first and
then finds the stripped key already present for the second (inserted = 1,
skipped_existing = 1) — even though the storage state ([]) is the same
for both calls. -/
theorem C4_preview_ingest_disagree :
    preview_ingestion
      ⟨expected_columns,
       [⟨some " A", some "B", some "C", some "p"⟩,
        ⟨some "A", some "B", some "C", some "q"⟩]⟩ [] =
      some ((2, 0), []) ∧
    ingest_excel_data noFail 0
      ⟨expected_columns,
       [⟨some " A", some "B", some "C", some "p"⟩,
        ⟨some "A", some "B", some "C", some "q"⟩]⟩ [] =
      some ([⟨"A", "B", "C", "p", 0, 0⟩], ⟨1, 1, 0, 2⟩) ∧
    (2 : Nat) ≠ 1 := by
  exact ⟨by decide, by decide, by decide⟩

/-- C4 amended: preview/ingest agreement holds for every batch whose
records surviving normalization have pairwise-distinct stripped keys,
when no record fails and storage does not change between the two calls:
preview's new count equals ingest's inserted count and preview's existing
count equals ingest's skipped count. -/
theorem C4_preview_ingest_agree (df : DataFrame) (db : Store) (now : Nat)
    (p : (Nat × Nat) × Store) (res : Store × IngestCounts)
    (hdist : (normalizePreview df.rows).Pairwise
      (fun a b => procKey a ≠ procKey b))
    (hprev : preview_ingestion df db = some p)
    (hing : ingest_excel_data noFail now df db = some res) :
    p.1.1 = res.2.new_count ∧ p.1.2 = res.2.skipped_count := by
  by_cases hcols : hasExpectedColumns df = true
  · unfold preview_ingestion at hprev
    unfold ingest_excel_data at hing
    rw [if_pos hcols, Option.some.injEq] at hprev hing
    rw [foldl_previewStep] at hprev
    rw [normalizeIngest_eq_map] at hing
    have hdistp : ((normalizePreview df.rows).map fillnaRow).Pairwise
        (fun a b => procKey a ≠ procKey b) := by
      rw [List.pairwise_map]
      simpa [procKey_fillnaRow] using hdist
    have hcounts := ingestLoop_classify
      ((normalizePreview df.rows).map fillnaRow) now 0 db db db
      ⟨0, 0, 0, 0⟩ hdistp (fun r _ => rfl)
    have hres2 : res.2 = (ingestLoop noFail now
        ((normalizePreview df.rows).map fillnaRow) 0 db db ⟨0, 0, 0, 0⟩).2.2 := by
      rw [hing]
    rw [hres2, hcounts]
    rw [← hprev]
    rw [List.countP_map, List.countP_map]
    exact ⟨rfl, rfl⟩
  · unfold preview_ingestion at hprev
    rw [if_neg hcols] at hprev
    exact absurd hprev (by simp)

/-- C4 amended witness: a concrete batch of two distinct-key rows, one of
them already stored: preview reports (1, 1) and ingest reports inserted
1, skipped 1. -/
theorem C4_preview_ingest_agree_witness : (1 : Nat) = 1 ∧ (1 : Nat) = 1 :=
  C4_preview_ingest_agree
    ⟨expected_columns,
     [⟨some "A", some "B", some "C", some "p"⟩,
      ⟨some "D", some "E", some "F", some "q"⟩]⟩
    [⟨"A", "B", "C", "old", 0, 0⟩] 4
    ((1, 1), [⟨"A", "B", "C", "old", 0, 0⟩])
    ([⟨"A", "B", "C", "old", 0, 0⟩, ⟨"D", "E", "F", "q", 4, 4⟩],
     ⟨1, 1, 0, 2⟩)
    (by decide) (by decide) (by decide)

/-- C5: last-wins dedup. For every raw batch and every raw key triple,
the rows surviving `dedupLast` (the normalizer's dedup step) that carry
that key are exactly the last occurrence of the key in original row
order — so when several rows share a key only the later row (and its
prompt) survives and all earlier occurrences are discarded. -/
theorem C5_dedup_last_wins (l : List RawRow)
    (k : Option String × Option String × Option String) :
    (dedupLast l).filter (fun r => decide (rawKey r = k)) =
      (l.reverse.find? (fun r => decide (rawKey r = k))).toList := by
  induction l with
  | nil => rfl
  | cons r rs ih =>
    rw [List.reverse_cons, List.find?_append]
    by_cases hk : rawKey r = k
    · have hpr : decide (rawKey r = k) = true := decide_eq_true hk
      by_cases hany : rs.any (fun s => decide (rawKey s = rawKey r)) = true
      · rw [dedupLast, if_pos hany, ih]
        have hsome : (rs.reverse.find?
            (fun r => decide (rawKey r = k))).isSome = true := by
          rw [List.find?_isSome]
          rw [List.any_eq_true] at hany
          obtain ⟨s, hs, he⟩ := hany
          refine ⟨s, List.mem_reverse.mpr hs, ?_⟩
          rw [decide_eq_true_iff, of_decide_eq_true he, hk]
        obtain ⟨x, hx⟩ := Option.isSome_iff_exists.mp hsome
        rw [hx]
        rfl
      · rw [dedupLast, if_neg hany]
        have hnors : ∀ x ∈ rs, rawKey x ≠ k := by
          intro x hxm hc
          apply hany
          rw [List.any_eq_true]
          exact ⟨x, hxm, decide_eq_true (by rw [hc, hk])⟩
        have hfiltnil : (dedupLast rs).filter
            (fun r => decide (rawKey r = k)) = [] := by
          rw [List.filter_eq_nil_iff]
          intro x hxm
          simp only [decide_eq_true_iff]
          exact hnors x (mem_of_mem_dedupLast rs x hxm)
        have hfindnone : rs.reverse.find?
            (fun r => decide (rawKey r = k)) = none := by
          rw [List.find?_eq_none]
          intro x hxm
          simp only [decide_eq_true_iff]
          exact hnors x (List.mem_reverse.mp hxm)
        rw [List.filter_cons, hfiltnil, hfindnone]
        simp [List.find?, hpr]
    · have hpr : decide (rawKey r = k) = false := decide_eq_false hk
      have hfindr : [r].find? (fun s => decide (rawKey s = k)) = none := by
        simp [List.find?, hpr]
      by_cases hany : rs.any (fun s => decide (rawKey s = rawKey r)) = true
      · rw [dedupLast, if_pos hany, ih, hfindr, Option.or_none]
      · rw [dedupLast, if_neg hany, List.filter_cons, ih, hfindr,
          Option.or_none]
        simp [hpr]

/-- C6 counterexample: an input whose column set strictly contains the
four expected columns — here with an extra column "Extra" — passes the
check and is processed by both preview and ingest, although the claim
requires any column set other than exactly the four to be rejected. The
code only checks that each expected column is present. -/
theorem C6_extra_columns_accepted :
    hasExpectedColumns ⟨expected_columns ++ ["Extra"], []⟩ = true ∧
    expected_columns ++ ["Extra"] ≠ expected_columns ∧
    preview_ingestion ⟨expected_columns ++ ["Extra"], []⟩ [] =
      some ((0, 0), []) ∧
    ingest_excel_data noFail 0 ⟨expected_columns ++ ["Extra"], []⟩ [] =
      some ([], ⟨0, 0, 0, 0⟩) := by
  exact ⟨by decide, by decide, by decide, by decide⟩

/-- C6 amended: both ingest and preview reject an input — returning the
missing-columns failure, before normalization and before touching any
storage — exactly when one of the columns Area, Sub Area, Field, Prompt
(case- and name-exact) is absent from the input's columns; column sets
containing all four, extra columns included, are accepted. -/
theorem C6_column_check (df : DataFrame) (db : Store)
    (fails : Nat → Bool) (now : Nat) :
    (ingest_excel_data fails now df db = none ↔
      ¬ ∀ c ∈ expected_columns, c ∈ df.columns) ∧
    (preview_ingestion df db = none ↔
      ¬ ∀ c ∈ expected_columns, c ∈ df.columns) := by
  have hiff : hasExpectedColumns df = true ↔
      ∀ c ∈ expected_columns, c ∈ df.columns := by
    unfold hasExpectedColumns
    rw [List.all_eq_true]
    constructor
    · intro h c hc
      exact List.elem_iff.mp (h c hc)
    · intro h c hc
      exact List.elem_iff.mpr (h c hc)
  by_cases hcols : hasExpectedColumns df = true
  · unfold ingest_excel_data preview_ingestion
    rw [if_pos hcols, if_pos hcols]
    simp
    exact hiff.mp hcols
  · unfold ingest_excel_data preview_ingestion
    rw [if_neg hcols, if_neg hcols]
    have hmiss : ¬ ∀ c ∈ expected_columns, c ∈ df.columns :=
      fun h => hcols (hiff.mpr h)
    simp [hmiss]

/-- C7: key-completeness filter and prompt coercion. Every record in the
normalized set of `ingest_excel_data` originates from a raw row whose
three key cells are all present — so a raw row missing area, sub_area or
field never survives, whatever its prompt — and carries that row's cells
with a missing prompt coerced to the empty string. -/
theorem C7_key_filter_prompt_coercion (rows : List RawRow) (r : RawRow)
    (h : r ∈ normalizeIngest rows) :
    ∃ r0, r0 ∈ rows ∧ keysPresent r0 = true ∧ r = fillnaRow r0 ∧
      r.prompt = some (r0.prompt.getD "") := by
  unfold normalizeIngest fillna at h
  have h1 := mem_of_mem_dedupLast _ _ h
  rw [List.mem_map] at h1
  obtain ⟨r0, hr0, heq⟩ := h1
  obtain ⟨hmem, hkeys⟩ := keysPresent_of_mem_dropnaKeys rows r0 hr0
  refine ⟨r0, hmem, hkeys, heq.symm, ?_⟩
  rw [← heq]
  rfl

/-- C7 witness: in a batch of one key-complete row with a missing prompt
and one row with a missing area, the surviving normalized record is the
key-complete row with its prompt coerced to "". -/
theorem C7_key_filter_prompt_coercion_witness :
    ∃ r0, r0 ∈ [(⟨some "X", some "Y", some "Z", none⟩ : RawRow),
                ⟨none, some "Y2", some "Z2", some "full prompt"⟩] ∧
      keysPresent r0 = true ∧
      (⟨some "X", some "Y", some "Z", some ""⟩ : RawRow) = fillnaRow r0 ∧
      (⟨some "X", some "Y", some "Z", some ""⟩ : RawRow).prompt =
        some (r0.prompt.getD "") :=
  C7_key_filter_prompt_coercion
    [⟨some "X", some "Y", some "Z", none⟩,
     ⟨none, some "Y2", some "Z2", some "full prompt"⟩]
    ⟨some "X", some "Y", some "Z", some ""⟩ (by decide)

/-- C8 counterexample: the stats window is anchored to `CURRENT_DATE`,
not to the query time. At query time 867600 (day 10, 01:00), a row
updated at 259300 — more than 7 days (604800 s) before the query time,
but on or after midnight-of-day-10 minus 7 days (259200) — is counted by
the code, while the claim's trailing 7-day window of the current time
excludes it. -/
theorem C8_recent_window_counterexample :
    (get_database_stats [⟨"A", "S", "F", "P", 259300, 259300⟩]
      867600).recent_updates = 1 ∧
    specRecentlyUpdated [⟨"A", "S", "F", "P", 259300, 259300⟩] 867600 = 0 ∧
    (1 : Nat) ≠ 0 := by
  exact ⟨by decide, by decide, by decide⟩

/-- C8 amended: `get_database_stats` returns, in one pure read of the
store, the row count, the numbers of distinct areas and sub-areas, and a
recently-updated count of exactly the rows whose updated_at is on or
after midnight of the current day minus 7 days — a date-anchored window
(reaching back up to almost 8 days, with no upper bound) that contains
every row of the claim's trailing 7-day window of the current time. -/
theorem C8_stats_characterization (db : Store) (now : Nat) :
    (get_database_stats db now).total_records = db.length ∧
    (get_database_stats db now).unique_areas =
      (db.map (fun r => r.area)).dedup.length ∧
    (get_database_stats db now).unique_sub_areas =
      (db.map (fun r => r.sub_area)).dedup.length ∧
    (get_database_stats db now).recent_updates =
      db.countP (fun r =>
        decide (currentDate now - 7 * secondsPerDay ≤ r.updated_at)) ∧
    specRecentlyUpdated db now ≤ (get_database_stats db now).recent_updates := by
  refine ⟨rfl, rfl, rfl, (List.countP_eq_length_filter _ _).symm, ?_⟩
  unfold specRecentlyUpdated get_database_stats
  rw [← List.countP_eq_length_filter, ← List.countP_eq_length_filter]
  apply List.countP_mono_left
  intro r _ h
  rw [decide_eq_true_iff] at h ⊢
  have hcd : currentDate now ≤ now := Nat.div_mul_le_self now secondsPerDay
  simp only [secondsPerDay] at h ⊢
  omega

/-- C9: preview never mutates storage, and an empty input reports
(0, 0) rather than an error. Whenever preview completes, the store
threaded through its read-only loop comes back exactly equal to the
initial store; if the input has no rows the reported counts are (0, 0). -/
theorem C9_preview_readonly (df : DataFrame) (db : Store)
    (res : (Nat × Nat) × Store) (h : preview_ingestion df db = some res) :
    res.2 = db ∧ (df.rows = [] → res.1 = (0, 0)) := by
  unfold preview_ingestion at h
  by_cases hcols : hasExpectedColumns df = true
  · rw [if_pos hcols, Option.some.injEq] at h
    refine ⟨?_, ?_⟩
    · rw [← h]
      exact foldl_previewStep_store _ _
    · intro hnil
      rw [← h, hnil]
      rfl
  · rw [if_neg hcols] at h
    exact absurd h (by simp)

/-- C9 witness: previewing a two-row batch (one key stored, one fresh)
against a one-row store returns counts (1, 1) and hands back the store
unchanged. -/
theorem C9_preview_readonly_witness :
    [(⟨"A", "B", "C", "p", 2, 2⟩ : StoredRow)] = [⟨"A", "B", "C", "p", 2, 2⟩] ∧
    ([(⟨some "A", some "B", some "C", some "x"⟩ : RawRow),
      ⟨some "D", some "E", some "G", some "y"⟩] = ([] : List RawRow) →
      ((1, 1) : Nat × Nat) = (0, 0)) :=
  C9_preview_readonly
    ⟨expected_columns,
     [⟨some "A", some "B", some "C", some "x"⟩,
      ⟨some "D", some "E", some "G", some "y"⟩]⟩
    [⟨"A", "B", "C", "p", 2, 2⟩]
    ((1, 1), [⟨"A", "B", "C", "p", 2, 2⟩]) (by decide)

/-- C10: dedup runs on raw, un-stripped key values. Two well-formed raw
rows whose raw key triples differ but strip to the same key both survive
normalization as distinct records; ingesting exactly them into an empty
store inserts the first and classifies the second against the
just-inserted row — inserted = 1, skipped_existing = 1, failed = 0 — and
the single stored row carries the first record's stripped data. -/
theorem C10_whitespace_distinct_rows (r1 r2 : RawRow) (now : Nat)
    (h1 : keysPresent r1 = true) (h2 : keysPresent r2 = true)
    (hraw : rawKey r1 ≠ rawKey r2) (hproc : procKey r1 = procKey r2) :
    normalizeIngest [r1, r2] = [fillnaRow r1, fillnaRow r2] ∧
    ingest_excel_data noFail now ⟨expected_columns, [r1, r2]⟩ [] =
      some ([toStored r1 now], ⟨1, 1, 0, 2⟩) := by
  simp only [procKey, Prod.mk.injEq] at hproc
  obtain ⟨ha, hs, hf⟩ := hproc
  have hdrop : dropnaKeys [r1, r2] = [r1, r2] := by
    apply List.filter_eq_self.mpr
    intro r hr
    rcases List.mem_cons.mp hr with h | h
    · rw [h]; exact h1
    · rw [List.mem_singleton.mp h]; exact h2
  have hne : rawKey (fillnaRow r2) ≠ rawKey (fillnaRow r1) := by
    rw [rawKey_fillnaRow r1 h1, rawKey_fillnaRow r2 h2]
    exact fun hc => hraw hc.symm
  have hnorm : normalizeIngest [r1, r2] = [fillnaRow r1, fillnaRow r2] := by
    unfold normalizeIngest fillna
    rw [hdrop, List.map_cons, List.map_cons, List.map_nil]
    simp [dedupLast, hne]
  refine ⟨hnorm, ?_⟩
  unfold ingest_excel_data
  rw [if_pos (by rfl), hnorm]
  rw [ingestLoop_cons_new (fillnaRow r1) [fillnaRow r2] now 0 [] []
    ⟨0, 0, 0, 0⟩ rfl]
  have hsel2 : (selectByKey ([] ++ [toStored (fillnaRow r1) now])
      (procA (fillnaRow r2)) (procS (fillnaRow r2))
      (procF (fillnaRow r2))).isSome = true := by
    rw [selectByKey_isSome_iff]
    exact ⟨toStored (fillnaRow r1) now, by simp, ha, hs, hf⟩
  rw [ingestLoop_cons_existing (fillnaRow r2) [] now 1 [] _ _ hsel2]
  rw [ingestLoop]
  simp [toStored_fillnaRow]

/-- C10 witness: raw keys (" A", "B", "C") and ("A", "B", "C") both
survive normalization; ingesting them yields inserted = 1, skipped = 1,
with the stored row carrying the first row's prompt. -/
theorem C10_whitespace_distinct_rows_witness :
    normalizeIngest [⟨some " A", some "B", some "C", some "p"⟩,
                     ⟨some "A", some "B", some "C", none⟩] =
      [⟨some " A", some "B", some "C", some "p"⟩,
       ⟨some "A", some "B", some "C", some ""⟩] ∧
    ingest_excel_data noFail 5
      ⟨expected_columns,
       [⟨some " A", some "B", some "C", some "p"⟩,
        ⟨some "A", some "B", some "C", none⟩]⟩ [] =
      some ([⟨"A", "B", "C", "p", 5, 5⟩], ⟨1, 1, 0, 2⟩) :=
  C10_whitespace_distinct_rows
    ⟨some " A", some "B", some "C", some "p"⟩
    ⟨some "A", some "B", some "C", none⟩ 5
    (by decide) (by decide) (by decide) (by decide)

end MainPy
